import Mathlib

/-!
Verification of the DNS lookup client (`mydns.py`): wire-format message codec
(query encoder, response decoder with name compression) and the iterative
referral-following resolution engine.

Modelling conventions:
- Python `bytes` and `str` values are modelled as `List Nat` (byte / code-point
  lists).  `str.split('.')` is `splitOnDot`, `'.'.join` is `joinDots`.
- Fallible Python code (exceptions) is modelled with `Except Err`:
  `IndexError` on out-of-range byte indexing, `struct.error` on short
  `struct.unpack` input, `OSError`/`UnicodeEncodeError` style value errors from
  `socket.inet_ntoa` / `str.encode('ascii')`, and `KeyError` on a missing dict
  key.  `Err.loopForever` is produced only on fuel exhaustion and marks
  divergence of the Python original: a loop that runs forever is modelled by a
  fuel-indexed function returning `Err.loopForever` for every fuel value.
- The transport layer (`query_dns_server`) is abstracted as a function
  `net : List Nat → Option Response` from a server address string to the parsed
  response (`none` models a timeout / transport or decode failure, in which
  case `query_dns_server` returns Python `None`).
-/

namespace MyDNS

/-- Failure modes of the modelled Python code.  The first four stand for
Python's `IndexError`, `struct.error`, `ValueError`/`OSError` and `KeyError`;
`loopForever` is returned on fuel exhaustion and marks divergence of the
unbounded Python loop. -/
inductive Err where
  | indexError
  | structError
  | valueError
  | keyError
  | loopForever
deriving DecidableEq, Repr

/-- A parsed resource record, the dict built by `_parse_resource_records`:
keys `name`, `type`, `class`, `ttl`, `rdlength` are always present; `ip` is
present only for type-A records with rdlength 4, `nameserver` only for NS
records (modelled with `Option`). -/
structure RR where
  name : List Nat
  rtype : Nat
  rclass : Nat
  ttl : Nat
  rdlength : Nat
  ip : Option (List Nat) := none
  nameserver : Option (List Nat) := none
deriving DecidableEq, Repr

/-- The dict returned by `DNSQuery.parse_response`. -/
structure Response where
  answers : List RR
  authorities : List RR
  additionals : List RR
  answer_count : Nat
  authority_count : Nat
  additional_count : Nat
deriving DecidableEq, Repr

/-- Python `data[i]` on a `bytes` object: the byte, or `IndexError`. -/
def byteAt (data : List Nat) (i : Nat) : Except Err Nat :=
  match data[i]? with
  | some b => .ok b
  | none => .error .indexError

/-- Python `data[a:b]` slicing (total, may return fewer than `b - a` bytes). -/
def slice (data : List Nat) (a b : Nat) : List Nat :=
  (data.drop a).take (b - a)

/-- `'.'.join(labels)` on byte-modelled strings (46 is `'.'`). -/
def joinDots : List (List Nat) → List Nat
  | [] => []
  | [l] => l
  | l :: ls => l ++ 46 :: joinDots ls

/-- `domain.split('.')` on a byte-modelled string. -/
def splitOnDot : List Nat → List (List Nat)
  | [] => [[]]
  | c :: t =>
    if c = 46 then [] :: splitOnDot t
    else
      match splitOnDot t with
      | [] => [[c]]
      | h :: r => (c :: h) :: r

/-- Decimal ASCII rendering of one byte value (< 256), as `inet_ntoa` prints it. -/
def decByte (n : Nat) : List Nat :=
  if n < 10 then [48 + n]
  else if n < 100 then [48 + n / 10, 48 + n % 10]
  else [48 + n / 100, 48 + (n / 10) % 100 % 10, 48 + n % 10]

/-- `socket.inet_ntoa`: requires exactly 4 bytes, renders dotted decimal. -/
def inet_ntoa (bs : List Nat) : Except Err (List Nat) :=
  match bs with
  | [a, b, c, d] =>
      .ok (decByte a ++ 46 :: (decByte b ++ 46 :: (decByte c ++ 46 :: decByte d)))
  | _ => .error .valueError

/-- One label of `_encode_domain_name`: `struct.pack('!B', len)` fails for a
length above 255, `label.encode('ascii')` fails on a non-ASCII code point. -/
def encodeLabels : List (List Nat) → Except Err (List Nat)
  | [] => .ok [0]
  | l :: ls =>
    if 255 < l.length then .error .structError
    else if l.all (· < 128) then
      match encodeLabels ls with
      | .ok rest => .ok (l.length :: (l ++ rest))
      | .error e => .error e
    else .error .valueError

/-- `DNSQuery._encode_domain_name`: length-prefixed labels, zero terminator. -/
def encode_domain_name (domain : List Nat) : Except Err (List Nat) :=
  encodeLabels (splitOnDot domain)

/-- `struct.unpack('!H', data[offset:offset+2])`. -/
def unpack16 (data : List Nat) (o : Nat) : Except Err Nat :=
  match slice data o (o + 2) with
  | [b0, b1] => .ok (b0 * 256 + b1)
  | _ => .error .structError

/-- `struct.unpack('!HHIH', data[offset:offset+10])`: (type, class, ttl, rdlength). -/
def unpackRRFields (data : List Nat) (o : Nat) : Except Err (Nat × Nat × Nat × Nat) :=
  match slice data o (o + 10) with
  | [b0, b1, b2, b3, b4, b5, b6, b7, b8, b9] =>
      .ok (b0 * 256 + b1, b2 * 256 + b3,
           ((b4 * 256 + b5) * 256 + b6) * 256 + b7, b8 * 256 + b9)
  | _ => .error .structError

/-- `struct.unpack('!HHHHHH', data[:12])`: the six header fields. -/
def unpackHeader (data : List Nat) : Except Err (Nat × Nat × Nat × Nat × Nat × Nat) :=
  match slice data 0 12 with
  | [b0, b1, b2, b3, b4, b5, b6, b7, b8, b9, b10, b11] =>
      .ok (b0 * 256 + b1, b2 * 256 + b3, b4 * 256 + b5,
           b6 * 256 + b7, b8 * 256 + b9, b10 * 256 + b11)
  | _ => .error .structError

/-- The `while True` loop of `DNSQuery._parse_domain_name`, fuel-indexed
(the Python loop is unbounded; a compression-pointer cycle makes it run
forever, which the model reports as `Err.loopForever` at every fuel).
State: current `offset`, the `jumped` flag, `original_offset` (meaningful once
`jumped` is set) and the accumulated labels. -/
def parseNameLoop (data : List Nat) :
    Nat → Nat → Bool → Nat → List (List Nat) → Except Err (List Nat × Nat)
  | 0, _, _, _, _ => .error .loopForever
  | fuel + 1, offset, jumped, orig, labs =>
    match byteAt data offset with
    | .error e => .error e
    | .ok len =>
      if len = 0 then
        .ok (joinDots labs, if jumped then orig else offset + 1)
      else if Nat.land len 192 = 192 then
        match unpack16 data offset with
        | .error e => .error e
        | .ok ptr =>
            parseNameLoop data fuel (Nat.land ptr 16383) true
              (if jumped then orig else offset + 2) labs
      else
        parseNameLoop data fuel (offset + 1 + len) jumped orig
          (labs ++ [(slice data (offset + 1) (offset + 1 + len)).filter (· < 128)])

/-- `DNSQuery._parse_domain_name`: returns the dot-joined name (labels decoded
with `errors='ignore'`, dropping non-ASCII bytes) and the caller's resume
offset. -/
def parse_domain_name (fuel : Nat) (data : List Nat) (offset : Nat) :
    Except Err (List Nat × Nat) :=
  parseNameLoop data fuel offset false 0 []

/-- The `while True` loop of `DNSQuery._skip_domain_name`.  The Python loop
always terminates (the offset strictly increases); the fuel argument is an
upper bound on the iteration count, made sufficient by the wrapper below. -/
def skipAux (data : List Nat) : Nat → Nat → Except Err Nat
  | 0, _ => .error .loopForever
  | fuel + 1, offset =>
    match byteAt data offset with
    | .error e => .error e
    | .ok len =>
      if len = 0 then .ok (offset + 1)
      else if Nat.land len 192 = 192 then .ok (offset + 2)
      else skipAux data fuel (offset + len + 1)

/-- `DNSQuery._skip_domain_name`. -/
def skip_domain_name (data : List Nat) (offset : Nat) : Except Err Nat :=
  skipAux data (data.length + 1) offset

/-- `DNSQuery._skip_question_section`: per question, skip the name then 4
bytes of QTYPE/QCLASS (the 4 bytes are skipped without being read). -/
def skip_question_section (data : List Nat) : Nat → Nat → Except Err Nat
  | offset, 0 => .ok offset
  | offset, count + 1 =>
    match skip_domain_name data offset with
    | .error e => .error e
    | .ok o => skip_question_section data (o + 4) count

/-- The per-record body of `DNSQuery._parse_resource_records`, looped `count`
times; records accumulate in order (Python appends to a mutable list). -/
def parseRRs (fuel : Nat) (data : List Nat) :
    Nat → Nat → List RR → Except Err (List RR × Nat)
  | offset, 0, acc => .ok (acc, offset)
  | offset, count + 1, acc =>
    match parse_domain_name fuel data offset with
    | .error e => .error e
    | .ok (name, o1) =>
      match unpackRRFields data o1 with
      | .error e => .error e
      | .ok (t, c, ttl, rdlen) =>
        let o2 := o1 + 10
        let rdataEnd := o2 + rdlen
        if t = 1 ∧ rdlen = 4 then
          match inet_ntoa (slice data o2 rdataEnd) with
          | .error e => .error e
          | .ok ip =>
              parseRRs fuel data rdataEnd count
                (acc ++ [{ name := name, rtype := t, rclass := c, ttl := ttl,
                           rdlength := rdlen, ip := some ip }])
        else if t = 2 then
          match parse_domain_name fuel data o2 with
          | .error e => .error e
          | .ok (ns, _) =>
              parseRRs fuel data rdataEnd count
                (acc ++ [{ name := name, rtype := t, rclass := c, ttl := ttl,
                           rdlength := rdlen, nameserver := some ns }])
        else
          parseRRs fuel data rdataEnd count
            (acc ++ [{ name := name, rtype := t, rclass := c, ttl := ttl,
                       rdlength := rdlen }])

/-- `DNSQuery.parse_response`: header, skipped question section, then the
answer / authority / additional sections in order. -/
def parse_response (fuel : Nat) (data : List Nat) : Except Err Response :=
  match unpackHeader data with
  | .error e => .error e
  | .ok (_, _, questions, answer_rrs, authority_rrs, additional_rrs) =>
    match skip_question_section data 12 questions with
    | .error e => .error e
    | .ok o1 =>
      match parseRRs fuel data o1 answer_rrs [] with
      | .error e => .error e
      | .ok (answers, o2) =>
        match parseRRs fuel data o2 authority_rrs [] with
        | .error e => .error e
        | .ok (authorities, o3) =>
          match parseRRs fuel data o3 additional_rrs [] with
          | .error e => .error e
          | .ok (additionals, _) =>
              .ok { answers := answers, authorities := authorities,
                    additionals := additionals,
                    answer_count := answer_rrs,
                    authority_count := authority_rrs,
                    additional_count := additional_rrs }

/-- The answer scan of `iterative_dns_lookup` (and the first loop of
`get_next_server`): is there an A record among the answers? -/
def hasAnswer (resp : Response) : Bool :=
  resp.answers.any (fun r => r.rtype = 1)

/-- The NS-collection loop of `get_next_server`: nameserver names of the
NS-typed authority records, in order (`record['nameserver']` raises `KeyError`
on a type-2 record without the key). -/
def collectNs : List RR → Except Err (List (List Nat))
  | [] => .ok []
  | r :: rs =>
    if r.rtype = 2 then
      match r.nameserver with
      | some ns =>
        match collectNs rs with
        | .ok rest => .ok (ns :: rest)
        | .error e => .error e
      | none => .error .keyError
    else collectNs rs

/-- The nested glue-matching loops of `get_next_server`: for each collected NS
name in order, scan the additionals in list order for a type-A record with
that exact name; first match wins. -/
def findFirstGlue (nss : List (List Nat)) (adds : List RR) : Option RR :=
  match nss with
  | [] => none
  | ns :: rest =>
    match adds.find? (fun r => r.rtype = 1 ∧ r.name = ns) with
    | some r => some r
    | none => findFirstGlue rest adds

/-- The fallback loop of `get_next_server`: the first A record in the
additionals, of any name. -/
def firstA (adds : List RR) : Option RR :=
  adds.find? (fun r => r.rtype = 1)

/-- `get_next_server`: `None` when an A answer exists or nothing matches;
otherwise the `'ip'` of the selected record (`KeyError` if absent). -/
def get_next_server (resp : Response) : Except Err (Option (List Nat)) :=
  if hasAnswer resp then .ok none
  else
    match collectNs resp.authorities with
    | .error e => .error e
    | .ok nss =>
      match findFirstGlue nss resp.additionals with
      | some r =>
        match r.ip with
        | some ip => .ok (some ip)
        | none => .error .keyError
      | none =>
        match firstA resp.additionals with
        | some r =>
          match r.ip with
          | some ip => .ok (some ip)
          | none => .error .keyError
        | none => .ok none

/-- The answers section of `display_response`: the `(name, ip)` pairs printed
for type-A answer records (`record['ip']` raises `KeyError` when absent). -/
def displayAnswers : List RR → Except Err (List (List Nat × List Nat))
  | [] => .ok []
  | r :: rs =>
    if r.rtype = 1 then
      match r.ip with
      | some ip =>
        match displayAnswers rs with
        | .ok rest => .ok ((r.name, ip) :: rest)
        | .error e => .error e
      | none => .error .keyError
    else displayAnswers rs

/-- The authority section of `display_response`: type-NS records print
`record['nameserver']` (`KeyError` when absent). -/
def displayAuthorities : List RR → Except Err Unit
  | [] => .ok ()
  | r :: rs =>
    if r.rtype = 2 then
      match r.nameserver with
      | some _ => displayAuthorities rs
      | none => .error .keyError
    else displayAuthorities rs

/-- The additional section of `display_response`: type-A records print
`record['ip']` (`KeyError` when absent), type-NS records print only the name. -/
def displayAdditionals : List RR → Except Err Unit
  | [] => .ok ()
  | r :: rs =>
    if r.rtype = 1 then
      match r.ip with
      | some _ => displayAdditionals rs
      | none => .error .keyError
    else displayAdditionals rs

/-- `display_response`: the answers section is iterated only when
`answer_count` is non-zero, then the authority and additional sections. -/
def display_response (resp : Response) : Except Err Unit :=
  match (if resp.answer_count = 0 then .ok [] else displayAnswers resp.answers) with
  | .error e => .error e
  | .ok _ =>
    match displayAuthorities resp.authorities with
    | .error e => .error e
    | .ok _ => displayAdditionals resp.additionals

/-- The first `Name/IP` line printed in the answers section, if any. -/
def firstShownAnswer (resp : Response) : Option (List Nat × List Nat) :=
  match displayAnswers resp.answers with
  | .ok (p :: _) => some p
  | _ => none

/-- The `while current_server:` loop of `iterative_dns_lookup`, fuel-indexed
(the Python loop is unbounded: `none` = the loop is still running when the
fuel runs out, which for every fuel means divergence).  The transport and
codec are abstracted as `net`; an empty server string makes the `while`
condition false.  Result: the returned boolean (or the uncaught exception
propagating out of `display_response` / `get_next_server`), paired with the
list of servers queried, in order. -/
def lookupLoop (net : List Nat → Option Response) :
    Nat → List Nat → Option (Except Err Bool × List (List Nat))
  | 0, _ => none
  | fuel + 1, server =>
    if server = [] then some (.ok false, [])
    else
      match net server with
      | none => some (.ok false, [server])
      | some resp =>
        match display_response resp with
        | .error e => some (.error e, [server])
        | .ok _ =>
          if hasAnswer resp then some (.ok true, [server])
          else
            match get_next_server resp with
            | .error e => some (.error e, [server])
            | .ok none => some (.ok false, [server])
            | .ok (some next) =>
              match lookupLoop net fuel next with
              | none => none
              | some (res, tr) => some (res, server :: tr)

/-- Spec-side scanner for the claim about resume offsets: walk the literal
labels from `offset` and report the first terminal token — `(false, pos)` for
a zero length byte at `pos`, `(true, pos)` for the first compression pointer
at `pos`.  Fuel-indexed aux; the wrapper supplies sufficient fuel. -/
def scanAux (data : List Nat) : Nat → Nat → Option (Bool × Nat)
  | 0, _ => none
  | fuel + 1, offset =>
    match byteAt data offset with
    | .error _ => none
    | .ok b =>
      if b = 0 then some (false, offset)
      else if Nat.land b 192 = 192 then some (true, offset)
      else scanAux data fuel (offset + b + 1)

/-- The terminal token (zero byte or first pointer) of the name starting at
`offset`. -/
def nameTerminal (data : List Nat) (offset : Nat) : Option (Bool × Nat) :=
  scanAux data (data.length + 1) offset

/-- The resume offset the spec prescribes: two bytes past the first pointer,
or one byte past the terminating zero. -/
def nameResume (data : List Nat) (offset : Nat) : Option Nat :=
  match nameTerminal data offset with
  | some (isPtr, pos) => some (pos + (if isPtr then 2 else 1))
  | none => none

/-! ### Concrete inputs used by the theorems below -/

/-- A well-formed response message exercising every section: one question
(`cs`), one A answer (compressed name, `93.184.216.34`), one NS authority
(rdata `ns` + pointer), one A additional (glue `8.8.8.8` for `ns.cs`). -/
def msgFull : List Nat :=
  [0,0, 0,0, 0,1, 0,1, 0,1, 0,1,
   2,99,115,0, 0,1, 0,1,
   192,12, 0,1, 0,1, 0,0,0,0, 0,4, 93,184,216,34,
   192,12, 0,2, 0,1, 0,0,0,0, 0,5, 2,110,115,192,12,
   192,48, 0,1, 0,1, 0,0,0,0, 0,4, 8,8,8,8]

/-- A well-formed response message with one question and no records. -/
def msgNoRecords : List Nat :=
  [0,0, 0,0, 0,1, 0,0, 0,0, 0,0, 1,97,0, 0,1, 0,1]

/-- A buffer whose first name is a compression pointer to offset 0, i.e. to
itself. -/
def selfPtrBuf : List Nat := [192, 0]

/-- The ASCII bytes of a server address string used in the referral cycle. -/
def cycIp : List Nat := [57, 46, 57, 46, 57, 46, 57]

/-- A referral response whose glue address is `cycIp` itself: a server that
refers the resolver back to the same server. -/
def cycResp : Response :=
  { answers := []
    authorities := [{ name := [99, 115], rtype := 2, rclass := 1, ttl := 0,
                      rdlength := 5, nameserver := some [110, 115] }]
    additionals := [{ name := [110, 115], rtype := 1, rclass := 1, ttl := 0,
                      rdlength := 4, ip := some cycIp }]
    answer_count := 0, authority_count := 1, additional_count := 1 }

/-- A network in which every server answers with the self-referral `cycResp`. -/
def cycNet : List Nat → Option Response := fun _ => some cycResp

/-! ### C5: compression-pointer cycles -/

/-- Helper for C5: once the parser has jumped into the self-pointer cycle the
loop never exits, at any fuel. -/
theorem parseNameLoop_selfPtr_stuck (fuel : Nat) :
    parseNameLoop selfPtrBuf fuel 0 true 2 [] = .error .loopForever := by
  induction fuel with
  | zero => rfl
  | succ n ih => exact ih

/-- C5 (code_bug): the claim requires name decoding on a pointer cycle to
terminate with a `CompressionLoop`/`MalformedName` error within a bounded
number of jumps.  The code has no jump bound: on the buffer `[0xC0, 0x00]`
(a pointer to its own offset) `_parse_domain_name` re-follows the pointer
forever.  Modelled with fuel, the loop fails to terminate at every fuel
value. -/
theorem self_pointer_loops_forever (fuel : Nat) :
    parse_domain_name fuel selfPtrBuf 0 = .error .loopForever := by
  cases fuel with
  | zero => rfl
  | succ n => exact parseNameLoop_selfPtr_stuck n

/-! ### C7: referral-cycle divergence of the resolution loop -/

/-- C7 (code_bug): the claim requires the resolution loop to stop with
`Failed(TooManyHops)` after `max_steps` hops.  `iterative_dns_lookup` has no
step bound at all: on a network whose every response is a referral pointing
back to the same server, the loop re-queries forever.  Modelled with fuel,
the loop is still running at every fuel value. -/
theorem referral_cycle_loops_forever (fuel : Nat) :
    lookupLoop cycNet fuel cycIp = none := by
  induction fuel with
  | zero => rfl
  | succ n ih =>
    show (match lookupLoop cycNet n cycIp with
          | none => none
          | some (res, tr) => some (res, cycIp :: tr)) = none
    rw [ih]

/-! ### C6 counterexample: a proper prefix that decodes without error -/

/-- C6 (counterexample): `msgNoRecords` is a well-formed 19-byte message
(it decodes successfully); its proper prefix of 17 bytes — truncated inside
the final question's QCLASS field — also decodes successfully, and to the
very same value, instead of failing with a truncation error as the claim
requires.  The four skipped QTYPE/QCLASS bytes are advanced over without
being read, so their loss goes unnoticed when no records follow. -/
theorem truncated_prefix_decodes_ok :
    (parse_response 16 msgNoRecords).isOk = true ∧
    17 < msgNoRecords.length ∧
    parse_response 16 (msgNoRecords.take 17) = parse_response 16 msgNoRecords := by
  exact ⟨rfl, by decide, rfl⟩

/-! ### C6: decoding a truncated buffer.
Monotonicity: every read the decoder performs on a prefix `data.take k`
agrees with the same read on `data`, so a decode that succeeds on a prefix
yields exactly the decode of the full buffer — never a different
("partial") result. -/

theorem getElem?_take_some {l : List Nat} {k i b : Nat}
    (h : (l.take k)[i]? = some b) : l[i]? = some b := by
  rw [List.getElem?_take] at h
  split at h
  · exact h
  · exact absurd h (by simp)

theorem byteAt_take_ok {l : List Nat} {k i b : Nat}
    (h : byteAt (l.take k) i = .ok b) : byteAt l i = .ok b := by
  unfold byteAt at h ⊢
  cases hg : (l.take k)[i]? with
  | none => rw [hg] at h; exact absurd h (by simp)
  | some x =>
    rw [hg] at h
    rw [getElem?_take_some hg]
    exact h

theorem byteAt_ok_lt {l : List Nat} {i b : Nat}
    (h : byteAt l i = .ok b) : i < l.length := by
  unfold byteAt at h
  cases hg : l[i]? with
  | none => rw [hg] at h; exact absurd h (by simp)
  | some x => exact (List.getElem?_eq_some.mp hg).1

theorem slice_take (l : List Nat) (k a b : Nat) :
    slice (l.take k) a b = (slice l a b).take (k - a) := by
  unfold slice
  rw [List.drop_take k a l, List.take_take, List.take_take, Nat.min_comm]

theorem slice_length_le (l : List Nat) (a b : Nat) :
    (slice l a b).length ≤ b - a := by
  simp [slice, List.length_take]

theorem slice_take_eq_of_length {l : List Nat} {k a b : Nat} {L : List Nat}
    (h : slice (l.take k) a b = L) (hL : L.length = b - a) :
    slice l a b = L := by
  rw [slice_take] at h
  have h1 : (slice l a b).length ≤ b - a := slice_length_le l a b
  have h2 : ((slice l a b).take (k - a)).length = b - a := by rw [h, hL]
  rw [List.length_take] at h2
  have h3 : (slice l a b).length = b - a := by omega
  have h4 : b - a ≤ k - a := by omega
  rw [← h]
  exact (List.take_of_length_le (by omega)).symm

theorem unpack16_take_ok {l : List Nat} {k o v : Nat}
    (h : unpack16 (l.take k) o = .ok v) : unpack16 l o = .ok v := by
  unfold unpack16 at h ⊢
  cases hs : slice (l.take k) o (o + 2) with
  | nil => rw [hs] at h; exact absurd h (by simp)
  | cons b0 t =>
    cases t with
    | nil => rw [hs] at h; exact absurd h (by simp)
    | cons b1 t2 =>
      cases t2 with
      | nil =>
        rw [slice_take_eq_of_length hs (by simp)]
        rw [hs] at h
        exact h
      | cons b2 t3 => rw [hs] at h; exact absurd h (by simp)

theorem unpackRRFields_take_ok {l : List Nat} {k o : Nat} {v : Nat × Nat × Nat × Nat}
    (h : unpackRRFields (l.take k) o = .ok v) : unpackRRFields l o = .ok v := by
  unfold unpackRRFields at h ⊢
  match hs : slice (l.take k) o (o + 10) with
  | [b0, b1, b2, b3, b4, b5, b6, b7, b8, b9] =>
    rw [slice_take_eq_of_length hs (by simp)]
    rw [hs] at h
    exact h
  | [] | [_] | [_,_] | [_,_,_] | [_,_,_,_] | [_,_,_,_,_] | [_,_,_,_,_,_]
  | [_,_,_,_,_,_,_] | [_,_,_,_,_,_,_,_] | [_,_,_,_,_,_,_,_,_]
  | _::_::_::_::_::_::_::_::_::_::_::_ =>
    rw [hs] at h; exact absurd h (by simp)

theorem unpackHeader_take_ok {l : List Nat} {k : Nat}
    {v : Nat × Nat × Nat × Nat × Nat × Nat}
    (h : unpackHeader (l.take k) = .ok v) : unpackHeader l = .ok v := by
  unfold unpackHeader at h ⊢
  match hs : slice (l.take k) 0 12 with
  | [b0, b1, b2, b3, b4, b5, b6, b7, b8, b9, b10, b11] =>
    rw [slice_take_eq_of_length hs (by simp)]
    rw [hs] at h
    exact h
  | [] | [_] | [_,_] | [_,_,_] | [_,_,_,_] | [_,_,_,_,_] | [_,_,_,_,_,_]
  | [_,_,_,_,_,_,_] | [_,_,_,_,_,_,_,_] | [_,_,_,_,_,_,_,_,_]
  | [_,_,_,_,_,_,_,_,_,_] | [_,_,_,_,_,_,_,_,_,_,_]
  | _::_::_::_::_::_::_::_::_::_::_::_::_::_ =>
    rw [hs] at h; exact absurd h (by simp)

theorem inet_ntoa_slice_take_ok {l : List Nat} {k a b : Nat} {v : List Nat}
    (hab : b - a = 4)
    (h : inet_ntoa (slice (l.take k) a b) = .ok v) : inet_ntoa (slice l a b) = .ok v := by
  unfold inet_ntoa at h ⊢
  match hs : slice (l.take k) a b with
  | [x0, x1, x2, x3] =>
    rw [slice_take_eq_of_length hs (by simp [hab])]
    rw [hs] at h
    exact h
  | [] | [_] | [_,_] | [_,_,_] | _::_::_::_::_::_ =>
    rw [hs] at h; exact absurd h (by simp)

theorem parseNameLoop_ok_byteAt {data : List Nat} {fuel off : Nat} {j : Bool}
    {orig : Nat} {labs : List (List Nat)} {v : List Nat × Nat}
    (h : parseNameLoop data fuel off j orig labs = .ok v) :
    ∃ b, byteAt data off = .ok b := by
  cases fuel with
  | zero => exact absurd h (by simp [parseNameLoop])
  | succ n =>
    unfold parseNameLoop at h
    cases hb : byteAt data off with
    | error e => rw [hb] at h; exact absurd h (by simp)
    | ok b => exact ⟨b, rfl⟩

theorem parseNameLoop_take_ok {data : List Nat} {k : Nat} :
    ∀ {fuel off : Nat} {j : Bool} {orig : Nat} {labs : List (List Nat)}
      {v : List Nat × Nat},
      parseNameLoop (data.take k) fuel off j orig labs = .ok v →
      parseNameLoop data fuel off j orig labs = .ok v := by
  intro fuel
  induction fuel with
  | zero => intro off j orig labs v h; exact absurd h (by simp [parseNameLoop])
  | succ n ih =>
    intro off j orig labs v h
    unfold parseNameLoop at h ⊢
    cases hb : byteAt (data.take k) off with
    | error e => rw [hb] at h; exact absurd h (by simp)
    | ok len =>
      rw [hb] at h
      rw [byteAt_take_ok hb]
      by_cases h0 : len = 0
      · simp only [h0, if_true] at h ⊢
        exact h
      · simp only [h0, if_false] at h ⊢
        by_cases hp : Nat.land len 192 = 192
        · simp only [hp, if_true] at h ⊢
          cases hu : unpack16 (data.take k) off with
          | error e => rw [hu] at h; exact absurd h (by simp)
          | ok ptr =>
            rw [hu] at h
            rw [unpack16_take_ok hu]
            exact ih h
        · simp only [hp, if_false] at h ⊢
          have hnext := parseNameLoop_ok_byteAt h
          obtain ⟨b, hbn⟩ := hnext
          have hlt : off + 1 + len < (data.take k).length := byteAt_ok_lt hbn
          have hk : off + 1 + len ≤ k := by
            rw [List.length_take] at hlt; omega
          have hsl : slice (data.take k) (off + 1) (off + 1 + len)
              = slice data (off + 1) (off + 1 + len) := by
            rw [slice_take]
            exact List.take_of_length_le
              (le_trans (slice_length_le data (off + 1) (off + 1 + len)) (by omega))
          rw [hsl] at h
          exact ih h

theorem parse_domain_name_take_ok {data : List Nat} {k fuel off : Nat}
    {v : List Nat × Nat}
    (h : parse_domain_name fuel (data.take k) off = .ok v) :
    parse_domain_name fuel data off = .ok v :=
  parseNameLoop_take_ok h

theorem skipAux_take_ok {data : List Nat} {k : Nat} :
    ∀ {fuel off v : Nat},
      skipAux (data.take k) fuel off = .ok v → skipAux data fuel off = .ok v := by
  intro fuel
  induction fuel with
  | zero => intro off v h; exact absurd h (by simp [skipAux])
  | succ n ih =>
    intro off v h
    unfold skipAux at h ⊢
    cases hb : byteAt (data.take k) off with
    | error e => rw [hb] at h; exact absurd h (by simp)
    | ok len =>
      rw [hb] at h
      rw [byteAt_take_ok hb]
      by_cases h0 : len = 0
      · simp only [h0, if_true] at h ⊢; exact h
      · simp only [h0, if_false] at h ⊢
        by_cases hp : Nat.land len 192 = 192
        · simp only [hp, if_true] at h ⊢; exact h
        · simp only [hp, if_false] at h ⊢; exact ih h

theorem skipAux_fuel_large {data : List Nat} :
    ∀ {fuel off v : Nat}, skipAux data fuel off = .ok v →
      ∀ {fuel' : Nat}, data.length ≤ fuel' + off → skipAux data fuel' off = .ok v := by
  intro fuel
  induction fuel with
  | zero => intro off v h; exact absurd h (by simp [skipAux])
  | succ n ih =>
    intro off v h fuel' hf
    unfold skipAux at h
    cases hb : byteAt data off with
    | error e => rw [hb] at h; exact absurd h (by simp)
    | ok len =>
      rw [hb] at h
      have hlt : off < data.length := byteAt_ok_lt hb
      have hf1 : 0 < fuel' := by omega
      obtain ⟨m, rfl⟩ : ∃ m, fuel' = m + 1 := ⟨fuel' - 1, by omega⟩
      unfold skipAux
      rw [hb]
      by_cases h0 : len = 0
      · simp only [h0, if_true] at h ⊢; exact h
      · simp only [h0, if_false] at h ⊢
        by_cases hp : Nat.land len 192 = 192
        · simp only [hp, if_true] at h ⊢; exact h
        · simp only [hp, if_false] at h ⊢
          exact ih h (by omega)

theorem skip_domain_name_take_ok {data : List Nat} {k off v : Nat}
    (h : skip_domain_name (data.take k) off = .ok v) :
    skip_domain_name data off = .ok v := by
  unfold skip_domain_name at h ⊢
  exact skipAux_fuel_large (skipAux_take_ok h) (by omega)

theorem skip_question_section_take_ok {data : List Nat} {k : Nat} :
    ∀ {count off v : Nat},
      skip_question_section (data.take k) off count = .ok v →
      skip_question_section data off count = .ok v := by
  intro count
  induction count with
  | zero => intro off v h; exact h
  | succ n ih =>
    intro off v h
    unfold skip_question_section at h ⊢
    cases hs : skip_domain_name (data.take k) off with
    | error e => rw [hs] at h; exact absurd h (by simp)
    | ok o =>
      rw [hs] at h
      rw [skip_domain_name_take_ok hs]
      exact ih h

theorem parseRRs_take_ok {data : List Nat} {k fuel : Nat} :
    ∀ {count off : Nat} {acc : List RR} {v : List RR × Nat},
      parseRRs fuel (data.take k) off count acc = .ok v →
      parseRRs fuel data off count acc = .ok v := by
  intro count
  induction count with
  | zero => intro off acc v h; exact h
  | succ n ih =>
    intro off acc v h
    unfold parseRRs at h ⊢
    cases hn : parse_domain_name fuel (data.take k) off with
    | error e => rw [hn] at h; exact absurd h (by simp)
    | ok nm =>
      obtain ⟨name, o1⟩ := nm
      rw [hn] at h
      rw [parse_domain_name_take_ok hn]
      dsimp only at h ⊢
      cases hu : unpackRRFields (data.take k) o1 with
      | error e => rw [hu] at h; exact absurd h (by simp)
      | ok fields =>
        obtain ⟨t, c, ttl, rdlen⟩ := fields
        rw [hu] at h
        rw [unpackRRFields_take_ok hu]
        dsimp only at h ⊢
        by_cases ht1 : t = 1 ∧ rdlen = 4
        · simp only [if_pos ht1] at h ⊢
          cases hi : inet_ntoa (slice (data.take k) (o1 + 10) (o1 + 10 + rdlen)) with
          | error e => rw [hi] at h; exact absurd h (by simp)
          | ok ip =>
            rw [hi] at h
            rw [inet_ntoa_slice_take_ok (by omega) hi]
            exact ih h
        · simp only [if_neg ht1] at h ⊢
          by_cases ht2 : t = 2
          · simp only [if_pos ht2] at h ⊢
            cases hn2 : parse_domain_name fuel (data.take k) (o1 + 10) with
            | error e => rw [hn2] at h; exact absurd h (by simp)
            | ok ns2 =>
              obtain ⟨ns, o3⟩ := ns2
              rw [hn2] at h
              rw [parse_domain_name_take_ok hn2]
              exact ih h
          · simp only [if_neg ht2] at h ⊢
            exact ih h

theorem parse_response_take_ok {fuel : Nat} {data : List Nat} {k : Nat}
    {r : Response}
    (h : parse_response fuel (data.take k) = .ok r) :
    parse_response fuel data = .ok r := by
  unfold parse_response at h ⊢
  cases hh : unpackHeader (data.take k) with
  | error e => rw [hh] at h; exact absurd h (by simp)
  | ok hdr =>
    obtain ⟨i, f, q, an, au, ad⟩ := hdr
    rw [hh] at h
    rw [unpackHeader_take_ok hh]
    dsimp only at h ⊢
    cases hq : skip_question_section (data.take k) 12 q with
    | error e => rw [hq] at h; exact absurd h (by simp)
    | ok o1 =>
      rw [hq] at h
      rw [skip_question_section_take_ok hq]
      dsimp only at h ⊢
      cases h1 : parseRRs fuel (data.take k) o1 an [] with
      | error e => rw [h1] at h; exact absurd h (by simp)
      | ok p1 =>
        obtain ⟨answers, o2⟩ := p1
        rw [h1] at h
        rw [parseRRs_take_ok h1]
        dsimp only at h ⊢
        cases h2 : parseRRs fuel (data.take k) o2 au [] with
        | error e => rw [h2] at h; exact absurd h (by simp)
        | ok p2 =>
          obtain ⟨auths, o3⟩ := p2
          rw [h2] at h
          rw [parseRRs_take_ok h2]
          dsimp only at h ⊢
          cases h3 : parseRRs fuel (data.take k) o3 ad [] with
          | error e => rw [h3] at h; exact absurd h (by simp)
          | ok p3 =>
            obtain ⟨adds, o4⟩ := p3
            rw [h3] at h
            rw [parseRRs_take_ok h3]
            exact h

/-- C6 (amended): decoding a proper prefix of a well-formed message never
yields a partial result, and the only prefixes that decode at all are those
that removed solely bytes the decoder never reads.  Formally:
(1) if `parse_response` succeeds on a prefix `data.take k` it returns exactly
the decode of the data it was given, which equals the decode of the full
buffer — so a truncation either fails (with one of the generic decode errors
modelling Python's `IndexError`/`struct.error`/`inet_ntoa` failure; the code
has no typed `TruncatedMessage`) or goes unnoticed because only unread bytes
were cut; and (2) for the message `msgFull`, whose every byte is read by the
decoder (all sections populated with A/NS records), every proper prefix
fails to decode — in particular the non-zero section counts cannot be
satisfied by the remaining bytes. -/
theorem truncation_monotone_and_exhaustive :
    (∀ (fuel : Nat) (data : List Nat) (k : Nat) (r : Response),
        parse_response fuel (data.take k) = .ok r →
        parse_response fuel data = .ok r) ∧
    (∀ k, k < msgFull.length → (parse_response 16 (msgFull.take k)).isOk = false) := by
  constructor
  · intro fuel data k r h
    exact parse_response_take_ok h
  · decide

/-- Witness for C6: the monotonicity half applied at the concrete truncated
message of the counterexample (its 17-byte prefix decodes to the full
message's decode), and the exhaustive half applied at prefix length 20 of
`msgFull`. -/
theorem truncation_monotone_and_exhaustive_witness :
    parse_response 16 msgNoRecords =
      .ok { answers := [], authorities := [], additionals := [],
            answer_count := 0, authority_count := 0, additional_count := 0 } ∧
    (parse_response 16 (msgFull.take 20)).isOk = false := by
  constructor
  · exact truncation_monotone_and_exhaustive.1 16 msgNoRecords 17
      { answers := [], authorities := [], additionals := [],
        answer_count := 0, authority_count := 0, additional_count := 0 } rfl
  · exact truncation_monotone_and_exhaustive.2 20 (by decide)

/-! ### C3 / C9: the resume offset of `_parse_domain_name` and its agreement
with `_skip_domain_name` -/

/-- Once `_parse_domain_name` has followed a pointer (`jumped` set), the
returned resume offset is exactly the saved `original_offset`, no matter
where the pointer chain leads. -/
theorem parseNameLoop_jumped_ret {data : List Nat} :
    ∀ {fuel off orig : Nat} {labs : List (List Nat)} {nm : List Nat} {ret : Nat},
      parseNameLoop data fuel off true orig labs = .ok (nm, ret) → ret = orig := by
  intro fuel
  induction fuel with
  | zero => intro off orig labs nm ret h; exact absurd h (by simp [parseNameLoop])
  | succ n ih =>
    intro off orig labs nm ret h
    unfold parseNameLoop at h
    cases hb : byteAt data off with
    | error e => rw [hb] at h; exact absurd h (by simp)
    | ok len =>
      rw [hb] at h
      by_cases h0 : len = 0
      · simp only [h0, if_true, if_pos] at h
        simp only [Except.ok.injEq, Prod.mk.injEq] at h
        exact h.2.symm
      · simp only [h0, if_false] at h
        by_cases hp : Nat.land len 192 = 192
        · simp only [hp, if_true] at h
          cases hu : unpack16 data off with
          | error e => rw [hu] at h; exact absurd h (by simp)
          | ok ptr =>
            rw [hu] at h
            simp only [if_pos] at h
            exact ih h
        · simp only [hp, if_false] at h
          exact ih h

/-- A successful run of the `_parse_domain_name` loop that has not yet
jumped determines the terminal token of the literal label chain: the scan
finds it with any fuel at least the parser's, and the returned resume offset
is the token's position plus 2 (first pointer) or plus 1 (zero byte). -/
theorem parseNameLoop_scan {data : List Nat} :
    ∀ {fuel off orig : Nat} {labs : List (List Nat)} {nm : List Nat} {ret : Nat},
      parseNameLoop data fuel off false orig labs = .ok (nm, ret) →
      ∀ {sf : Nat}, fuel ≤ sf →
        ∃ t : Bool × Nat, scanAux data sf off = some t ∧
          ret = t.2 + (if t.1 then 2 else 1) := by
  intro fuel
  induction fuel with
  | zero => intro off orig labs nm ret h; exact absurd h (by simp [parseNameLoop])
  | succ n ih =>
    intro off orig labs nm ret h sf hsf
    obtain ⟨m, rfl⟩ : ∃ m, sf = m + 1 := ⟨sf - 1, by omega⟩
    unfold parseNameLoop at h
    unfold scanAux
    cases hb : byteAt data off with
    | error e => rw [hb] at h; exact absurd h (by simp)
    | ok len =>
      rw [hb] at h
      by_cases h0 : len = 0
      · simp only [h0, if_true] at h ⊢
        simp only [Bool.false_eq_true, if_false] at h
        simp only [Except.ok.injEq, Prod.mk.injEq] at h
        exact ⟨(false, off), rfl, by simp [h.2.symm]⟩
      · simp only [h0, if_false] at h ⊢
        by_cases hp : Nat.land len 192 = 192
        · simp only [hp, if_true] at h ⊢
          cases hu : unpack16 data off with
          | error e => rw [hu] at h; exact absurd h (by simp)
          | ok ptr =>
            rw [hu] at h
            simp only [Bool.false_eq_true, if_false] at h
            have := parseNameLoop_jumped_ret h
            exact ⟨(true, off), rfl, by simp [this]⟩
        · simp only [hp, if_false] at h ⊢
          have h' : parseNameLoop data n (off + 1 + len) false orig
              (labs ++ [(slice data (off + 1) (off + 1 + len)).filter (· < 128)])
              = .ok (nm, ret) := h
          have := ih h' (show n ≤ m by omega)
          have harith : off + len + 1 = off + 1 + len := by omega
          rw [harith]
          exact this

/-- Fuel adjustment for the terminal scan: a successful scan succeeds with
any fuel at least `data.length - offset`. -/
theorem scanAux_fuel_large {data : List Nat} :
    ∀ {fuel off : Nat} {t : Bool × Nat}, scanAux data fuel off = some t →
      ∀ {fuel' : Nat}, data.length ≤ fuel' + off → scanAux data fuel' off = some t := by
  intro fuel
  induction fuel with
  | zero => intro off t h; exact absurd h (by simp [scanAux])
  | succ n ih =>
    intro off t h fuel' hf
    unfold scanAux at h
    cases hb : byteAt data off with
    | error e => rw [hb] at h; exact absurd h (by simp)
    | ok len =>
      rw [hb] at h
      have hlt : off < data.length := byteAt_ok_lt hb
      obtain ⟨m, rfl⟩ : ∃ m, fuel' = m + 1 := ⟨fuel' - 1, by omega⟩
      unfold scanAux
      rw [hb]
      by_cases h0 : len = 0
      · simp only [h0, if_true] at h ⊢; exact h
      · simp only [h0, if_false] at h ⊢
        by_cases hp : Nat.land len 192 = 192
        · simp only [hp, if_true] at h ⊢; exact h
        · simp only [hp, if_false] at h ⊢
          exact ih h (by omega)

/-- The skip loop lands exactly where the terminal scan says: one byte past a
zero terminator, two bytes past a first pointer. -/
theorem scanAux_skipAux {data : List Nat} :
    ∀ {fuel off : Nat} {t : Bool × Nat}, scanAux data fuel off = some t →
      skipAux data fuel off = .ok (t.2 + (if t.1 then 2 else 1)) := by
  intro fuel
  induction fuel with
  | zero => intro off t h; exact absurd h (by simp [scanAux])
  | succ n ih =>
    intro off t h
    unfold scanAux at h
    unfold skipAux
    cases hb : byteAt data off with
    | error e => rw [hb] at h; exact absurd h (by simp)
    | ok len =>
      rw [hb] at h
      by_cases h0 : len = 0
      · simp only [h0, if_true] at h ⊢
        simp only [Option.some.injEq] at h
        subst h
        simp
      · simp only [h0, if_false] at h ⊢
        by_cases hp : Nat.land len 192 = 192
        · simp only [hp, if_true] at h ⊢
          simp only [Option.some.injEq] at h
          subst h
          simp
        · simp only [hp, if_false] at h ⊢
          exact ih h

/-- C3 (confirmed): whenever `_parse_domain_name` succeeds, the resume offset
it hands back to the caller is the position of the first compression pointer
encountered plus 2 (regardless of where the pointer chain terminates), or,
if the name contains no pointer, one byte past the terminating zero-length
label — exactly the value `nameResume` computes from the terminal token. -/
theorem parse_name_resume_offset (fuel : Nat) (data : List Nat) (off : Nat)
    (nm : List Nat) (ret : Nat)
    (h : parse_domain_name fuel data off = .ok (nm, ret)) :
    nameResume data off = some ret := by
  obtain ⟨t, hscan, hret⟩ := parseNameLoop_scan h le_rfl
  have hN : nameTerminal data off = some t :=
    scanAux_fuel_large hscan (by omega)
  unfold nameResume
  rw [hN]
  rw [hret]

/-- Witness for C3: a name consisting of the literal label `a` followed by a
pointer to the name `foo` at offset 0; the parser resumes two bytes past the
pointer's position 7, at offset 9, even though the jump target is offset 0. -/
theorem parse_name_resume_offset_witness :
    nameResume [3, 102, 111, 111, 0, 1, 97, 192, 0] 5 = some 9 :=
  parse_name_resume_offset 8 [3, 102, 111, 111, 0, 1, 97, 192, 0] 5
    [97, 46, 102, 111, 111] 9 rfl

/-- C9 (confirmed): wherever the full name parser `_parse_domain_name`
terminates successfully, the skip-only traversal `_skip_domain_name` applied
to the same buffer and offset returns exactly the parser's resume offset —
the two name-scanning routines agree on how many bytes a name occupies in
the section being scanned. -/
theorem skip_agrees_with_parse (fuel : Nat) (data : List Nat) (off : Nat)
    (nm : List Nat) (ret : Nat)
    (h : parse_domain_name fuel data off = .ok (nm, ret)) :
    skip_domain_name data off = .ok ret := by
  obtain ⟨t, hscan, hret⟩ := parseNameLoop_scan h le_rfl
  have hN : scanAux data (data.length + 1) off = some t :=
    scanAux_fuel_large hscan (by omega)
  unfold skip_domain_name
  rw [scanAux_skipAux hN]
  rw [hret]

/-- Witness for C9: skip and parse agree on the compressed name of the
additional record of `msgFull` (name at offset 53, resume offset 55). -/
theorem skip_agrees_with_parse_witness :
    skip_domain_name msgFull 53 = .ok 55 :=
  skip_agrees_with_parse 16 msgFull 53 [110, 115, 46, 99, 115] 55 rfl

/-! ### C4: encode/decode round trip for the question-section name -/

theorem splitOnDot_ne_nil (s : List Nat) : splitOnDot s ≠ [] := by
  cases s with
  | nil => simp [splitOnDot]
  | cons c t =>
    unfold splitOnDot
    by_cases hc : c = 46
    · simp [hc]
    · simp only [hc, if_false]
      cases splitOnDot t with
      | nil => simp
      | cons h r => simp

/-- Splitting on dots and re-joining with dots is the identity (Python's
`'.'.join(s.split('.')) == s`). -/
theorem joinDots_splitOnDot (s : List Nat) : joinDots (splitOnDot s) = s := by
  induction s with
  | nil => rfl
  | cons c t ih =>
    unfold splitOnDot
    by_cases hc : c = 46
    · simp only [hc, if_true]
      cases hs : splitOnDot t with
      | nil => exact absurd hs (splitOnDot_ne_nil t)
      | cons h r =>
        rw [hs] at ih
        show joinDots ([] :: h :: r) = 46 :: t
        unfold joinDots
        rw [ih]
        simp
    · simp only [hc, if_false]
      cases hs : splitOnDot t with
      | nil => exact absurd hs (splitOnDot_ne_nil t)
      | cons h r =>
        rw [hs] at ih
        cases r with
        | nil =>
          show joinDots [c :: h] = c :: t
          unfold joinDots at ih ⊢
          rw [ih]
        | cons r1 rs =>
          show joinDots ((c :: h) :: r1 :: rs) = c :: t
          unfold joinDots at ih ⊢
          rw [← ih]
          simp

theorem getElem?_append_cons (pre : List Nat) (x : Nat) (t : List Nat) :
    (pre ++ x :: t)[pre.length]? = some x := by
  induction pre with
  | nil => simp
  | cons a p ih => simpa using ih

theorem land_192_ne_of_le_63 {n : Nat} (h : n ≤ 63) : Nat.land n 192 ≠ 192 := by
  have H : ∀ m, m < 64 → Nat.land m 192 ≠ 192 := by decide
  exact H n (by omega)

/-- Parsing the encoding of a valid label list, embedded after an arbitrary
prefix, consumes exactly the encoding and appends exactly those labels. -/
theorem parse_encodeLabels {ls : List (List Nat)} :
    ∀ {bs : List Nat},
      encodeLabels ls = .ok bs →
      (∀ l ∈ ls, 0 < l.length ∧ l.length ≤ 63 ∧ ∀ c ∈ l, c < 128) →
      ∀ (pre : List Nat) (fuel : Nat), ls.length + 1 ≤ fuel →
        ∀ (labs : List (List Nat)) (orig : Nat),
          parseNameLoop (pre ++ bs) fuel pre.length false orig labs
            = .ok (joinDots (labs ++ ls), pre.length + bs.length) := by
  induction ls with
  | nil =>
    intro bs henc hval pre fuel hfuel labs orig
    have hbs : bs = [0] := by
      simpa [encodeLabels] using henc.symm
    subst hbs
    obtain ⟨m, rfl⟩ : ∃ m, fuel = m + 1 := ⟨fuel - 1, by omega⟩
    unfold parseNameLoop
    rw [show byteAt (pre ++ [0]) pre.length = .ok 0 by
      unfold byteAt; rw [getElem?_append_cons]]
    simp

  | cons l ls' ih =>
    intro bs henc hval pre fuel hfuel labs orig
    have hl := hval l (by simp)
    obtain ⟨hlpos, hl63, hlascii⟩ := hl
    have h255 : ¬ 255 < l.length := by omega
    have hall : l.all (· < 128) = true := by
      simp only [List.all_eq_true, decide_eq_true_eq]
      exact hlascii
    unfold encodeLabels at henc
    rw [if_neg h255, if_pos hall] at henc
    cases hrest : encodeLabels ls' with
    | error e => rw [hrest] at henc; exact absurd henc (by simp)
    | ok rest =>
      rw [hrest] at henc
      simp only [Except.ok.injEq] at henc
      subst henc
      obtain ⟨m, rfl⟩ : ∃ m, fuel = m + 1 := ⟨fuel - 1, by omega⟩
      unfold parseNameLoop
      rw [show byteAt (pre ++ l.length :: (l ++ rest)) pre.length = .ok l.length by
        unfold byteAt; rw [getElem?_append_cons]]
      dsimp only
      have hne : ¬ (l.length = 0) := by omega
      rw [if_neg hne, if_neg (land_192_ne_of_le_63 hl63)]
      have hslice : slice (pre ++ l.length :: (l ++ rest)) (pre.length + 1)
          (pre.length + 1 + l.length) = l := by
        unfold slice
        have hd : (pre ++ l.length :: (l ++ rest)).drop (pre.length + 1)
            = l ++ rest := by
          rw [show pre ++ l.length :: (l ++ rest)
              = (pre ++ [l.length]) ++ (l ++ rest) by simp]
          rw [show pre.length + 1 = (pre ++ [l.length]).length by simp]
          exact List.drop_left _ _
        rw [hd]
        rw [Nat.add_sub_cancel_left]
        exact List.take_left l rest
      rw [hslice]
      rw [List.filter_eq_self.mpr (by simpa using hlascii)]
      have hpre' : pre ++ l.length :: (l ++ rest)
          = (pre ++ l.length :: l) ++ rest := by simp
      have hlen' : pre.length + 1 + l.length = (pre ++ l.length :: l).length := by
        simp; omega
      rw [hpre', hlen']
      rw [ih hrest (fun x hx => hval x (by simp [hx])) (pre ++ l.length :: l) (m)
        (by simpa using hfuel) (labs ++ [l]) orig]
      have hjoin : joinDots ((labs ++ [l]) ++ ls') = joinDots (labs ++ l :: ls') := by
        rw [List.append_assoc]
        rfl
      rw [hjoin]
      have hoff : (pre ++ l.length :: l).length + rest.length
          = pre.length + (l.length :: (l ++ rest)).length := by
        simp; omega
      rw [hoff]

/-- C4 (confirmed): for every domain string made of non-empty ASCII labels of
at most 63 bytes, decoding the question-section name bytes produced by
`_encode_domain_name` yields back exactly the same dotted domain string,
byte for byte (case preserved), consuming the whole encoding. -/
theorem encode_decode_roundtrip
    (domain enc : List Nat) (fuel : Nat)
    (hval : ∀ l ∈ splitOnDot domain, 0 < l.length ∧ l.length ≤ 63 ∧ ∀ c ∈ l, c < 128)
    (henc : encode_domain_name domain = .ok enc)
    (hfuel : (splitOnDot domain).length + 1 ≤ fuel) :
    parse_domain_name fuel enc 0 = .ok (domain, enc.length) := by
  unfold parse_domain_name
  have := parse_encodeLabels henc hval [] fuel hfuel [] 0
  simpa [joinDots_splitOnDot] using this

/-- Witness for C4: the domain `cs.fiu.edu` (= bytes
`[99,115,46,102,105,117,46,101,100,117]`) encodes to
`[2]cs[3]fiu[3]edu[0]` and decodes back to itself. -/
theorem encode_decode_roundtrip_witness :
    parse_domain_name 4 [2, 99, 115, 3, 102, 105, 117, 3, 101, 100, 117, 0] 0
      = .ok ([99, 115, 46, 102, 105, 117, 46, 101, 100, 117], 12) :=
  encode_decode_roundtrip [99, 115, 46, 102, 105, 117, 46, 101, 100, 117]
    [2, 99, 115, 3, 102, 105, 117, 3, 101, 100, 117, 0] 4
    (by decide) rfl (by decide)

/-! ### Engine helper lemmas for C1, C2, C8, C10 -/

theorem hasAnswer_of_split {resp : Response} {pre rest : List RR} {r : RR}
    (hsplit : resp.answers = pre ++ r :: rest) (hr : r.rtype = 1) :
    hasAnswer resp = true := by
  unfold hasAnswer
  rw [hsplit]
  simp [List.any_eq_true]
  exact Or.inr (Or.inl hr)

theorem find?_first {p : RR → Bool} {pre rest : List RR} {r : RR}
    (hpre : ∀ a ∈ pre, p a = false) (hr : p r = true) :
    (pre ++ r :: rest).find? p = some r := by
  induction pre with
  | nil => exact List.find?_cons_of_pos _ hr
  | cons a t ih =>
    rw [List.cons_append]
    rw [List.find?_cons_of_neg _ (by simp [hpre a (by simp)])]
    exact ih (fun x hx => hpre x (by simp [hx]))

theorem find?_none {p : RR → Bool} {l : List RR}
    (h : ∀ a ∈ l, p a = false) : l.find? p = none := by
  apply List.find?_eq_none.mpr
  intro x hx
  simp [h x hx]

theorem findFirstGlue_cons (n : List Nat) (t : List (List Nat)) (adds : List RR) :
    findFirstGlue (n :: t) adds
      = match adds.find? (fun r => r.rtype = 1 ∧ r.name = n) with
        | some r => some r
        | none => findFirstGlue t adds := rfl

theorem findFirstGlue_skip {nss1 : List (List Nat)} {l2 : List (List Nat)}
    {adds : List RR}
    (h : ∀ n ∈ nss1, ∀ a ∈ adds, ¬(a.rtype = 1 ∧ a.name = n)) :
    findFirstGlue (nss1 ++ l2) adds = findFirstGlue l2 adds := by
  induction nss1 with
  | nil => rfl
  | cons n t ih =>
    rw [List.cons_append, findFirstGlue_cons]
    rw [find?_none (p := fun r => r.rtype = 1 ∧ r.name = n)
      (fun a ha => by simpa using h n (by simp) a ha)]
    exact ih (fun x hx => h x (by simp [hx]))

theorem findFirstGlue_none {nss : List (List Nat)} {adds : List RR}
    (h : ∀ n ∈ nss, ∀ a ∈ adds, ¬(a.rtype = 1 ∧ a.name = n)) :
    findFirstGlue nss adds = none := by
  have := @findFirstGlue_skip nss [] adds h
  rw [List.append_nil] at this
  exact this

theorem displayAnswers_cons (r : RR) (rs : List RR) :
    displayAnswers (r :: rs)
      = if r.rtype = 1 then
          match r.ip with
          | some ip =>
            match displayAnswers rs with
            | .ok rest => .ok ((r.name, ip) :: rest)
            | .error e => .error e
          | none => .error .keyError
        else displayAnswers rs := rfl

theorem displayAnswers_append_skip {pre l : List RR}
    (hpre : ∀ p ∈ pre, p.rtype ≠ 1) :
    displayAnswers (pre ++ l) = displayAnswers l := by
  induction pre with
  | nil => rfl
  | cons a t ih =>
    rw [List.cons_append, displayAnswers_cons]
    rw [if_neg (hpre a (by simp))]
    exact ih (fun x hx => hpre x (by simp [hx]))

theorem displayAnswers_ok_or_keyError (l : List RR) :
    (∃ v, displayAnswers l = .ok v) ∨ displayAnswers l = .error .keyError := by
  induction l with
  | nil => exact Or.inl ⟨[], rfl⟩
  | cons a t ih =>
    unfold displayAnswers
    by_cases h1 : a.rtype = 1
    · rw [if_pos h1]
      cases hip : a.ip with
      | none => exact Or.inr rfl
      | some ip =>
        rcases ih with ⟨v, hv⟩ | hv
        · rw [hv]; exact Or.inl ⟨_, rfl⟩
        · rw [hv]; exact Or.inr rfl
    · rw [if_neg h1]; exact ih

theorem displayAuthorities_ok_or_keyError (l : List RR) :
    displayAuthorities l = .ok () ∨ displayAuthorities l = .error .keyError := by
  induction l with
  | nil => exact Or.inl rfl
  | cons a t ih =>
    unfold displayAuthorities
    by_cases h2 : a.rtype = 2
    · rw [if_pos h2]
      cases hns : a.nameserver with
      | none => exact Or.inr rfl
      | some ns => exact ih
    · rw [if_neg h2]; exact ih

theorem displayAnswers_bad {l : List RR} {r : RR}
    (hmem : r ∈ l) (hr : r.rtype = 1) (hip : r.ip = none) :
    displayAnswers l = .error .keyError := by
  induction l with
  | nil => exact absurd hmem (by simp)
  | cons a t ih =>
    unfold displayAnswers
    rcases List.mem_cons.mp hmem with rfl | hmem'
    · rw [if_pos hr, hip]
    · by_cases h1 : a.rtype = 1
      · rw [if_pos h1]
        cases hipa : a.ip with
        | none => rfl
        | some ip => rw [ih hmem']
      · rw [if_neg h1]
        exact ih hmem'

theorem displayAdditionals_bad {l : List RR} {r : RR}
    (hmem : r ∈ l) (hr : r.rtype = 1) (hip : r.ip = none) :
    displayAdditionals l = .error .keyError := by
  induction l with
  | nil => exact absurd hmem (by simp)
  | cons a t ih =>
    unfold displayAdditionals
    rcases List.mem_cons.mp hmem with rfl | hmem'
    · rw [if_pos hr, hip]
    · by_cases h1 : a.rtype = 1
      · rw [if_pos h1]
        cases hipa : a.ip with
        | none => rfl
        | some ip => exact ih hmem'
      · rw [if_neg h1]
        exact ih hmem'

/-- A type-A record with no `'ip'` key anywhere in the answers or additionals
makes `display_response` raise `KeyError` (display is the first thing
`iterative_dns_lookup` does with a response). -/
theorem display_response_bad {resp : Response} {r : RR}
    (hcount : resp.answer_count = resp.answers.length)
    (hmem : r ∈ resp.answers ++ resp.additionals)
    (hr : r.rtype = 1) (hip : r.ip = none) :
    display_response resp = .error .keyError := by
  unfold display_response
  rcases List.mem_append.mp hmem with hans | hadd
  · have hne : resp.answer_count ≠ 0 := by
      rw [hcount]
      cases h : resp.answers with
      | nil => rw [h] at hans; exact absurd hans (by simp)
      | cons a t => simp [h]
    rw [if_neg hne]
    rw [displayAnswers_bad hans hr hip]
  · by_cases hne : resp.answer_count = 0
    · rw [if_pos hne]
      dsimp only
      rcases displayAuthorities_ok_or_keyError resp.authorities with ha | ha
      · rw [ha]
        exact displayAdditionals_bad hadd hr hip
      · rw [ha]
    · rw [if_neg hne]
      rcases displayAnswers_ok_or_keyError resp.answers with ⟨v, hv⟩ | hv
      · rw [hv]
        dsimp only
        rcases displayAuthorities_ok_or_keyError resp.authorities with ha | ha
        · rw [ha]
          exact displayAdditionals_bad hadd hr hip
        · rw [ha]
      · rw [hv]

/-! ### C1: answer priority -/

/-- C1 (confirmed): when the decoded message contains an A record among its
answers (first A record `r`, address `ip`), the resolution loop succeeds
immediately after this single query — the trace is `[s]`, so no further query
is issued and `get_next_server` is never consulted — and the first answer
line reported carries exactly that first A record's name and address.  The
response's `authorities` and `additionals` are universally quantified, so the
outcome is the same however they are populated. -/
theorem answer_priority_no_referral
    (net : List Nat → Option Response) (s : List Nat) (resp : Response)
    (fuel : Nat) (pre rest : List RR) (r : RR) (ip : List Nat)
    (hnet : net s = some resp) (hs : s ≠ [])
    (hsplit : resp.answers = pre ++ r :: rest)
    (hpre : ∀ p ∈ pre, p.rtype ≠ 1)
    (hr : r.rtype = 1) (hip : r.ip = some ip)
    (hcount : resp.answer_count = resp.answers.length)
    (hdisp : display_response resp = .ok ()) :
    lookupLoop net (fuel + 1) s = some (.ok true, [s]) ∧
    firstShownAnswer resp = some (r.name, ip) := by
  have htrue : hasAnswer resp = true := hasAnswer_of_split hsplit hr
  constructor
  · unfold lookupLoop
    rw [if_neg hs, hnet]
    dsimp only
    rw [hdisp]
    dsimp only
    rw [htrue]
    simp
  · have hnonzero : resp.answer_count ≠ 0 := by
      rw [hcount, hsplit]
      simp
    have hDA : displayAnswers resp.answers
        = match displayAnswers rest with
          | .ok l => .ok ((r.name, ip) :: l)
          | .error e => .error e := by
      rw [hsplit, displayAnswers_append_skip hpre, displayAnswers_cons,
        if_pos hr, hip]
    unfold display_response at hdisp
    rw [if_neg hnonzero] at hdisp
    cases hrest : displayAnswers rest with
    | error e =>
      rw [hrest] at hDA
      rw [hDA] at hdisp
      exact absurd hdisp (by simp)
    | ok l =>
      rw [hrest] at hDA
      unfold firstShownAnswer
      rw [hDA]

/-- A response with a populated answers section (first A record `cs` with
address `1.2.3.4`), and populated authority/additional sections. -/
def ansResp : Response :=
  { answers := [{ name := [99, 115], rtype := 1, rclass := 1, ttl := 0,
                  rdlength := 4, ip := some [49, 46, 50, 46, 51, 46, 52] }]
    authorities := [{ name := [], rtype := 2, rclass := 1, ttl := 0,
                      rdlength := 2, nameserver := some [110] }]
    additionals := [{ name := [110], rtype := 1, rclass := 1, ttl := 0,
                      rdlength := 4, ip := some [53, 46, 54, 46, 55, 46, 56] }]
    answer_count := 1, authority_count := 1, additional_count := 1 }

/-- Witness for C1: with populated authorities and additionals, the loop
stops after one query with success and shows the answer's address. -/
theorem answer_priority_no_referral_witness :
    lookupLoop (fun _ => some ansResp) 1 [97] = some (.ok true, [[97]]) ∧
    firstShownAnswer ansResp = some ([99, 115], [49, 46, 50, 46, 51, 46, 52]) :=
  answer_priority_no_referral (fun _ => some ansResp) [97] ansResp 0
    [] [] _ _ rfl (by simp) rfl (by simp) rfl rfl rfl rfl

/-! ### C2: referral glue precedence -/

/-- C2 (confirmed): with no A answer, `get_next_server` collects the NS names
of the authority records in order (`nss1 ++ ns :: nss2`), and returns the
address of the first type-A additional (in list order) whose name equals, by
exact case-sensitive byte equality, the first collected NS name that has any
match — here `ns`, whose earliest additional match is `r`, even when an
additional record matching a later NS name appears earlier in the list. -/
theorem referral_glue_precedence
    (resp : Response) (nss1 nss2 : List (List Nat)) (ns : List Nat)
    (pre rest : List RR) (r : RR) (ip : List Nat)
    (hans : hasAnswer resp = false)
    (hcol : collectNs resp.authorities = .ok (nss1 ++ ns :: nss2))
    (hno1 : ∀ n ∈ nss1, ∀ a ∈ resp.additionals, ¬(a.rtype = 1 ∧ a.name = n))
    (hadd : resp.additionals = pre ++ r :: rest)
    (hpre : ∀ a ∈ pre, ¬(a.rtype = 1 ∧ a.name = ns))
    (hr1 : r.rtype = 1) (hrn : r.name = ns) (hip : r.ip = some ip) :
    get_next_server resp = .ok (some ip) := by
  have hglue : findFirstGlue (nss1 ++ ns :: nss2) resp.additionals = some r := by
    rw [findFirstGlue_skip hno1, findFirstGlue_cons]
    rw [hadd]
    rw [find?_first (p := fun a => a.rtype = 1 ∧ a.name = ns)
      (fun a ha => by simp [hpre a ha]) (by simp [hr1, hrn])]
  unfold get_next_server
  rw [hans]
  simp only [Bool.false_eq_true, if_false]
  rw [hcol]
  dsimp only
  rw [hglue]
  dsimp only
  rw [hip]

/-- `ns1.example.com` as bytes. -/
def exNs1 : List Nat :=
  [110, 115, 49, 46, 101, 120, 97, 109, 112, 108, 101, 46, 99, 111, 109]

/-- `ns2.example.com` as bytes. -/
def exNs2 : List Nat :=
  [110, 115, 50, 46, 101, 120, 97, 109, 112, 108, 101, 46, 99, 111, 109]

/-- The referral-precedence example of the claim:
`authorities = [NS ns1.example.com, NS ns2.example.com]`,
`additionals = [A ns2.example.com -> 9.9.9.9, A ns1.example.com -> 8.8.8.8]`. -/
def exResp : Response :=
  { answers := []
    authorities :=
      [{ name := [], rtype := 2, rclass := 1, ttl := 0, rdlength := 17,
         nameserver := some exNs1 },
       { name := [], rtype := 2, rclass := 1, ttl := 0, rdlength := 17,
         nameserver := some exNs2 }]
    additionals :=
      [{ name := exNs2, rtype := 1, rclass := 1, ttl := 0, rdlength := 4,
         ip := some [57, 46, 57, 46, 57, 46, 57] },
       { name := exNs1, rtype := 1, rclass := 1, ttl := 0, rdlength := 4,
         ip := some [56, 46, 56, 46, 56, 46, 56] }]
    answer_count := 0, authority_count := 2, additional_count := 2 }

/-- Witness for C2: on the claim's concrete example the chosen next server is
`8.8.8.8` (the match for the first NS name), not `9.9.9.9`. -/
theorem referral_glue_precedence_witness :
    get_next_server exResp = .ok (some [56, 46, 56, 46, 56, 46, 56]) :=
  referral_glue_precedence exResp [] [exNs2] exNs1
    [{ name := exNs2, rtype := 1, rclass := 1, ttl := 0, rdlength := 4,
       ip := some [57, 46, 57, 46, 57, 46, 57] }] [] _ _
    rfl rfl (by simp) rfl (by decide) rfl rfl rfl

/-! ### C8: fallback selection and the no-candidate outcome -/

/-- C8 (confirmed): with no A answer and no additional record matching any
collected NS name, `get_next_server` falls back to the first type-A record of
the additionals regardless of its name and returns its address; and if the
additionals contain no type-A record at all, it returns `None`, upon which
`iterative_dns_lookup` terminates with failure (return `False`) after that
single query, issuing no further one. -/
theorem referral_fallback_and_no_candidate
    (resp : Response) (nss : List (List Nat))
    (hans : hasAnswer resp = false)
    (hcol : collectNs resp.authorities = .ok nss)
    (hnoglue : ∀ n ∈ nss, ∀ a ∈ resp.additionals, ¬(a.rtype = 1 ∧ a.name = n)) :
    (∀ (pre rest : List RR) (r : RR) (ip : List Nat),
        resp.additionals = pre ++ r :: rest → (∀ p ∈ pre, p.rtype ≠ 1) →
        r.rtype = 1 → r.ip = some ip →
        get_next_server resp = .ok (some ip)) ∧
    ((∀ a ∈ resp.additionals, a.rtype ≠ 1) →
      get_next_server resp = .ok none ∧
      ∀ (net : List Nat → Option Response) (s : List Nat) (fuel : Nat),
        net s = some resp → s ≠ [] → display_response resp = .ok () →
        lookupLoop net (fuel + 1) s = some (.ok false, [s])) := by
  have hglue : findFirstGlue nss resp.additionals = none := findFirstGlue_none hnoglue
  constructor
  · intro pre rest r ip hadd hpre hr1 hip
    unfold get_next_server
    rw [hans]
    simp only [Bool.false_eq_true, if_false]
    rw [hcol]
    dsimp only
    rw [hglue]
    dsimp only
    unfold firstA
    rw [hadd]
    rw [find?_first (p := fun a => a.rtype = 1)
      (fun a ha => by simp [hpre a ha]) (by simp [hr1])]
    dsimp only
    rw [hip]
  · intro hnoA
    have hfa : firstA resp.additionals = none :=
      find?_none (fun a ha => by simp [hnoA a ha])
    have hgns : get_next_server resp = .ok none := by
      unfold get_next_server
      rw [hans]
      simp only [Bool.false_eq_true, if_false]
      rw [hcol]
      dsimp only
      rw [hglue]
      dsimp only
      rw [hfa]
    refine ⟨hgns, ?_⟩
    intro net s fuel hnet hs hdisp
    unfold lookupLoop
    rw [if_neg hs, hnet]
    dsimp only
    rw [hdisp]
    dsimp only
    rw [hans]
    simp only [Bool.false_eq_true, if_false]
    rw [hgns]

/-- A referral whose only NS name (`x`) has no matching additional: the
additionals hold a type-NS record and then a type-A record named `z`. -/
def fbResp : Response :=
  { answers := []
    authorities := [{ name := [], rtype := 2, rclass := 1, ttl := 0,
                      rdlength := 2, nameserver := some [120] }]
    additionals :=
      [{ name := [121], rtype := 2, rclass := 1, ttl := 0, rdlength := 2,
         nameserver := some [121] },
       { name := [122], rtype := 1, rclass := 1, ttl := 0, rdlength := 4,
         ip := some [55, 46, 55, 46, 55, 46, 55] }]
    answer_count := 0, authority_count := 1, additional_count := 2 }

/-- A referral with an NS authority but no type-A additional at all. -/
def noAResp : Response :=
  { answers := []
    authorities := [{ name := [], rtype := 2, rclass := 1, ttl := 0,
                      rdlength := 2, nameserver := some [120] }]
    additionals := []
    answer_count := 0, authority_count := 1, additional_count := 0 }

/-- Witness for C8: the name-mismatched first A record (`7.7.7.7`, named `z`,
matching no NS name) is chosen as fallback; and with no A additional at all
the selection yields no candidate and the loop fails after one query. -/
theorem referral_fallback_and_no_candidate_witness :
    get_next_server fbResp = .ok (some [55, 46, 55, 46, 55, 46, 55]) ∧
    get_next_server noAResp = .ok none ∧
    lookupLoop (fun _ => some noAResp) 1 [98] = some (.ok false, [[98]]) := by
  refine ⟨?_, ?_, ?_⟩
  · exact (referral_fallback_and_no_candidate fbResp [[120]] rfl rfl
      (by decide)).1
      [{ name := [121], rtype := 2, rclass := 1, ttl := 0, rdlength := 2,
         nameserver := some [121] }] [] _ _ rfl (by decide) rfl rfl
  · exact ((referral_fallback_and_no_candidate noAResp [[120]] rfl rfl
      (by decide)).2 (by decide)).1
  · exact ((referral_fallback_and_no_candidate noAResp [[120]] rfl rfl
      (by decide)).2 (by decide)).2 (fun _ => some noAResp) [98] 0 rfl
      (by simp) rfl

/-! ### C10: an A record's address field exists exactly when rdlength = 4,
and the engine aborts (rather than skips) on a type-A record without it -/

/-- The record invariant established by `_parse_resource_records`: the `'ip'`
key is present exactly on type-A records with rdlength 4, and the
`'nameserver'` key is present on every type-NS record. -/
def goodRR (r : RR) : Prop :=
  (r.ip.isSome ↔ (r.rtype = 1 ∧ r.rdlength = 4)) ∧
  (r.rtype = 2 → r.nameserver.isSome)

theorem parseRRs_good {fuel : Nat} {data : List Nat} :
    ∀ {count off : Nat} {acc : List RR} {v : List RR × Nat},
      parseRRs fuel data off count acc = .ok v →
      (∀ x ∈ acc, goodRR x) → ∀ x ∈ v.1, goodRR x := by
  intro count
  induction count with
  | zero =>
    intro off acc v h hacc
    have : acc = v.1 := by
      simp only [parseRRs, Except.ok.injEq] at h
      rw [← h]
    rw [← this]
    exact hacc
  | succ n ih =>
    intro off acc v h hacc
    unfold parseRRs at h
    cases hn : parse_domain_name fuel data off with
    | error e => rw [hn] at h; exact absurd h (by simp)
    | ok nm =>
      obtain ⟨name, o1⟩ := nm
      rw [hn] at h
      dsimp only at h
      cases hu : unpackRRFields data o1 with
      | error e => rw [hu] at h; exact absurd h (by simp)
      | ok fields =>
        obtain ⟨t, c, ttl, rdlen⟩ := fields
        rw [hu] at h
        dsimp only at h
        by_cases ht1 : t = 1 ∧ rdlen = 4
        · rw [if_pos ht1] at h
          cases hi : inet_ntoa (slice data (o1 + 10) (o1 + 10 + rdlen)) with
          | error e => rw [hi] at h; exact absurd h (by simp)
          | ok ip =>
            rw [hi] at h
            refine ih h ?_
            intro x hx
            rcases List.mem_append.mp hx with hx | hx
            · exact hacc x hx
            · have : x = { name := name, rtype := t, rclass := c, ttl := ttl,
                           rdlength := rdlen, ip := some ip } := by simpa using hx
              subst this
              exact ⟨by simp [ht1.1, ht1.2], by simp [ht1.1]⟩
        · rw [if_neg ht1] at h
          by_cases ht2 : t = 2
          · rw [if_pos ht2] at h
            cases hn2 : parse_domain_name fuel data (o1 + 10) with
            | error e => rw [hn2] at h; exact absurd h (by simp)
            | ok ns2 =>
              obtain ⟨ns, o3⟩ := ns2
              rw [hn2] at h
              dsimp only at h
              refine ih h ?_
              intro x hx
              rcases List.mem_append.mp hx with hx | hx
              · exact hacc x hx
              · have : x = { name := name, rtype := t, rclass := c, ttl := ttl,
                             rdlength := rdlen, nameserver := some ns } := by simpa using hx
                subst this
                refine ⟨by simp [ht2], by simp⟩
          · rw [if_neg ht2] at h
            refine ih h ?_
            intro x hx
            rcases List.mem_append.mp hx with hx | hx
            · exact hacc x hx
            · have : x = { name := name, rtype := t, rclass := c, ttl := ttl,
                           rdlength := rdlen } := by simpa using hx
              subst this
              exact ⟨by simpa using ht1, by intro h2; exact absurd h2 ht2⟩

/-- C10 (confirmed): (1) in every successfully decoded message a record
carries the `'ip'` address field exactly when it is a type-A record with
rdlength 4 (and every type-NS record carries `'nameserver'`); (2) when some
type-A record in the answers or additionals of the decoded response lacks
the address field (rdlength ≠ 4), the engine does not skip it: the very
first step of the loop aborts with `KeyError` (the display path reads
`record['ip']`), issuing no further query; and (3) if the glue record
selected by next-server selection lacks the field, `get_next_server` itself
aborts with `KeyError` instead of skipping to another record. -/
theorem a_record_ip_iff_rdlength4 :
    (∀ (fuel : Nat) (data : List Nat) (resp : Response),
        parse_response fuel data = .ok resp →
        ∀ r ∈ resp.answers ++ resp.authorities ++ resp.additionals,
          (r.ip.isSome ↔ (r.rtype = 1 ∧ r.rdlength = 4)) ∧
          (r.rtype = 2 → r.nameserver.isSome)) ∧
    (∀ (net : List Nat → Option Response) (s : List Nat) (resp : Response)
        (fuel : Nat) (r : RR),
        net s = some resp → s ≠ [] →
        resp.answer_count = resp.answers.length →
        r ∈ resp.answers ++ resp.additionals → r.rtype = 1 → r.ip = none →
        lookupLoop net (fuel + 1) s = some (.error .keyError, [s])) ∧
    (∀ (resp : Response) (nss : List (List Nat)) (r : RR),
        hasAnswer resp = false →
        collectNs resp.authorities = .ok nss →
        findFirstGlue nss resp.additionals = some r → r.ip = none →
        get_next_server resp = .error .keyError) := by
  refine ⟨?_, ?_, ?_⟩
  · intro fuel data resp h r hr
    unfold parse_response at h
    cases hh : unpackHeader data with
    | error e => rw [hh] at h; exact absurd h (by simp)
    | ok hdr =>
      obtain ⟨i, f, q, an, au, ad⟩ := hdr
      rw [hh] at h
      dsimp only at h
      cases hq : skip_question_section data 12 q with
      | error e => rw [hq] at h; exact absurd h (by simp)
      | ok o1 =>
        rw [hq] at h
        dsimp only at h
        cases h1 : parseRRs fuel data o1 an [] with
        | error e => rw [h1] at h; exact absurd h (by simp)
        | ok p1 =>
          obtain ⟨answers, o2⟩ := p1
          rw [h1] at h
          dsimp only at h
          cases h2 : parseRRs fuel data o2 au [] with
          | error e => rw [h2] at h; exact absurd h (by simp)
          | ok p2 =>
            obtain ⟨auths, o3⟩ := p2
            rw [h2] at h
            dsimp only at h
            cases h3 : parseRRs fuel data o3 ad [] with
            | error e => rw [h3] at h; exact absurd h (by simp)
            | ok p3 =>
              obtain ⟨adds, o4⟩ := p3
              rw [h3] at h
              dsimp only at h
              simp only [Except.ok.injEq] at h
              subst h
              simp only at hr
              rcases List.mem_append.mp hr with hr' | hr'
              · rcases List.mem_append.mp hr' with hr'' | hr''
                · exact parseRRs_good h1 (by simp) r hr''
                · exact parseRRs_good h2 (by simp) r hr''
              · exact parseRRs_good h3 (by simp) r hr'
  · intro net s resp fuel r hnet hs hcount hmem hr hip
    have hdisp := display_response_bad hcount hmem hr hip
    unfold lookupLoop
    rw [if_neg hs, hnet]
    dsimp only
    rw [hdisp]
  · intro resp nss r hans hcol hglue hip
    unfold get_next_server
    rw [hans]
    simp only [Bool.false_eq_true, if_false]
    rw [hcol]
    dsimp only
    rw [hglue]
    dsimp only
    rw [hip]

/-- A 26-byte message whose single answer is a type-A record with
rdlength 3 — its address field is absent after decoding. -/
def msgBadA : List Nat :=
  [0,0, 0,0, 0,0, 0,1, 0,0, 0,0, 0, 0,1, 0,1, 0,0,0,0, 0,3, 1,2,3]

/-- The rdlength-3 type-A answer record of `msgBadA` after decoding. -/
def badAnswerRec : RR :=
  { name := [], rtype := 1, rclass := 1, ttl := 0, rdlength := 3 }

/-- The decode of `msgBadA`. -/
def badResp : Response :=
  { answers := [badAnswerRec]
    authorities := []
    additionals := []
    answer_count := 1, authority_count := 0, additional_count := 0 }

/-- A referral whose single glue match is a type-A additional without the
address field. -/
def badGlueResp : Response :=
  { answers := []
    authorities := [{ name := [], rtype := 2, rclass := 1, ttl := 0,
                      rdlength := 2, nameserver := some [110] }]
    additionals := [{ name := [110], rtype := 1, rclass := 1, ttl := 0,
                      rdlength := 6, ip := none }]
    answer_count := 0, authority_count := 1, additional_count := 1 }

/-- Witness for C10: decoding `msgBadA` leaves the rdlength-3 A record
without an address field (the iff instantiated at that record), the engine
crashes with `KeyError` on its first step for that response, and
`get_next_server` crashes on the ip-less glue record of `badGlueResp`. -/
theorem a_record_ip_iff_rdlength4_witness :
    parse_response 16 msgBadA = .ok badResp ∧
    ((badAnswerRec.ip.isSome ↔
        (badAnswerRec.rtype = 1 ∧ badAnswerRec.rdlength = 4)) ∧
      (badAnswerRec.rtype = 2 → badAnswerRec.nameserver.isSome)) ∧
    lookupLoop (fun _ => some badResp) 1 [97] = some (.error .keyError, [[97]]) ∧
    get_next_server badGlueResp = .error .keyError := by
  refine ⟨rfl, ?_, ?_, ?_⟩
  · exact a_record_ip_iff_rdlength4.1 16 msgBadA badResp rfl badAnswerRec (by decide)
  · exact a_record_ip_iff_rdlength4.2.1 (fun _ => some badResp) [97] badResp 0
      badAnswerRec rfl (by simp) rfl (by decide) rfl rfl
  · exact a_record_ip_iff_rdlength4.2.2 badGlueResp [[110]]
      { name := [110], rtype := 1, rclass := 1, ttl := 0, rdlength := 6,
        ip := none }
      rfl rfl rfl rfl

end MyDNS
